import Mathlib

/-!
Verification of the poly1305 package (one-time message authentication code).

The Go source is embedded shallowly: bytes are `Nat` values below 256, byte
slices are `List Nat`, `uint32`/`uint64` arithmetic is `Nat` arithmetic with
an explicit `% 2^32` / `% 2^64` wherever the machine width can matter, and a
Go runtime panic (slice bounds out of range, or the deliberate panic in
`Reset`) is modelled by `Option`/`none`.  The package's `init` function
unconditionally ends with `littleEndian = false`, so only the generic
byte-wise decoding branches of `initialize`, `update` and `finish` are
reachable; the embedding translates exactly those branches.
-/

namespace Poly1305

/-- Five 26-bit accumulator/multiplier limbs (`[5]uint32` in the source). -/
abbrev Limbs := Nat × Nat × Nat × Nat × Nat

/-- Four 32-bit words (`[4]uint32` in the source). -/
abbrev Words := Nat × Nat × Nat × Nat

/-- `const TagSize = 16`. -/
def TagSize : Nat := 16

/-- `msgBlock = uint32(1 << 24)`: flag ORed into the fifth limb of a full block. -/
def msgBlock : Nat := 1 <<< 24

/-- `finalBlock = uint32(0)`: flag used for the padded final block. -/
def finalBlock : Nat := 0

/-- Little-endian `uint32` load of four bytes starting at index `i`
(`uint32(b[i]) | uint32(b[i+1])<<8 | uint32(b[i+2])<<16 | uint32(b[i+3])<<24`). -/
def le32 (m : List Nat) (i : Nat) : Nat :=
  (m.getD i 0) ||| ((m.getD (i+1) 0) <<< 8) ||| ((m.getD (i+2) 0) <<< 16) |||
    ((m.getD (i+3) 0) <<< 24)

/-- The fifth decoded limb of a 16-byte block:
`(le32 m 12 >> 8) | flag` (source line 180). -/
def loadLimb4 (m : List Nat) (flag : Nat) : Nat := ((le32 m 12) >>> 8) ||| flag

/-- One iteration of the block loop of `update` (source lines 167-200):
`h += m; h *= r; h %= p` on a single 16-byte block `m`. -/
def update1 (m : List Nat) (flag : Nat) (h r : Limbs) : Limbs :=
  match h, r with
  | (h0, h1, h2, h3, h4), (r0, r1, r2, r3, r4) =>
    let s1 := r1 * 5 % 2^32
    let s2 := r2 * 5 % 2^32
    let s3 := r3 * 5 % 2^32
    let s4 := r4 * 5 % 2^32
    -- h += m
    let a0 := (h0 + ((le32 m 0) &&& 0x3ffffff)) % 2^32
    let a1 := (h1 + (((le32 m 3) >>> 2) &&& 0x3ffffff)) % 2^32
    let a2 := (h2 + (((le32 m 6) >>> 4) &&& 0x3ffffff)) % 2^32
    let a3 := (h3 + (((le32 m 9) >>> 6) &&& 0x3ffffff)) % 2^32
    let a4 := (h4 + loadLimb4 m flag) % 2^32
    -- h *= r (uint64 arithmetic)
    let d0 := (a0*r0 + a1*s4 + a2*s3 + a3*s2 + a4*s1) % 2^64
    let d1 := ((d0 >>> 26) + a0*r1 + a1*r0 + a2*s4 + a3*s3 + a4*s2) % 2^64
    let d2 := ((d1 >>> 26) + a0*r2 + a1*r1 + a2*r0 + a3*s4 + a4*s3) % 2^64
    let d3 := ((d2 >>> 26) + a0*r3 + a1*r2 + a2*r1 + a3*r0 + a4*s4) % 2^64
    let d4 := ((d3 >>> 26) + a0*r4 + a1*r3 + a2*r2 + a3*r1 + a4*r0) % 2^64
    -- h %= p
    let e0 := (d0 % 2^32) &&& 0x3ffffff
    let e1 := (d1 % 2^32) &&& 0x3ffffff
    let e2 := (d2 % 2^32) &&& 0x3ffffff
    let e3 := (d3 % 2^32) &&& 0x3ffffff
    let e4 := (d4 % 2^32) &&& 0x3ffffff
    let f0 := (e0 + (((d4 >>> 26) % 2^32) * 5) % 2^32) % 2^32
    let f1 := (e1 + (f0 >>> 26)) % 2^32
    let f0a := f0 &&& 0x3ffffff
    (f0a, f1, e2, e3, e4)

/-- The block loop of `update` with explicit structural fuel: each iteration
consumes 16 bytes, so any fuel of at least `msg.length` makes the recursion
equal to the Go `for i := 0; i < len(msg); i += TagSize` loop. -/
def updateGo (fuel : Nat) (msg : List Nat) (flag : Nat) (h r : Limbs) : Limbs :=
  match fuel with
  | 0 => h
  | fuel + 1 =>
    if msg = [] then h
    else updateGo fuel (msg.drop TagSize) flag (update1 (msg.take TagSize) flag h r) r

/-- `update(msg, flag, h, r)` (source lines 161-202): folds the 16-byte blocks
of `msg` into the accumulator.  All call sites pass a `msg` whose length is a
multiple of 16. -/
def updateLoop (msg : List Nat) (flag : Nat) (h r : Limbs) : Limbs :=
  updateGo msg.length msg flag h r

/-- The `polyHash` struct (source lines 61-67).  `buf`/`off` are modelled as the
list of the first `off` filled buffer bytes, so `off = buf.length`; the bytes
of the Go array beyond `off` are never read before being overwritten. -/
structure polyHash where
  h : Limbs
  r : Limbs
  pad : Words
  buf : List Nat
deriving DecidableEq, Repr

/-- The clamped multiplier `r` from key bytes 0-15 (source lines 148-152). -/
def initR (key : List Nat) : Limbs :=
  ( (le32 key 0) &&& 0x3ffffff,
    ((le32 key 3) >>> 2) &&& 0x3ffff03,
    ((le32 key 6) >>> 4) &&& 0x3ffc0ff,
    ((le32 key 9) >>> 6) &&& 0x3f03fff,
    ((le32 key 12) >>> 8) &&& 0x00fffff )

/-- The pad words from key bytes 16-31 (source lines 154-157). -/
def initPad (key : List Nat) : Words :=
  (le32 key 16, le32 key 20, le32 key 24, le32 key 28)

/-- The state `New` builds for a 32-byte key: zero accumulator, clamped `r`,
verbatim pad, empty buffer. -/
def newState (key : List Nat) : polyHash :=
  { h := (0, 0, 0, 0, 0), r := initR key, pad := initPad key, buf := [] }

/-- Modelled from the spec: `crypto.KeySizeError` comes from the library's
companion package, which is not part of the provided source; §7 of the spec
says it carries the offending key length. -/
inductive CryptoError where
  | keySizeError : Nat → CryptoError
deriving DecidableEq, Repr

/-- `New(key)` (source lines 74-84): rejects any key whose length is not 32. -/
def New (key : List Nat) : Except CryptoError polyHash :=
  if key.length ≠ 32 then .error (.keySizeError key.length)
  else .ok (newState key)

/-- Stages 2 and 3 of `Write` (source lines 107-116): fold the full 16-byte
blocks of the remaining input, then buffer the tail.  `length = len(msg) &^ 15`
is the length rounded down to a multiple of 16. -/
def writeBlocks (n : Nat) (msg : List Nat) (p : polyHash) : Option (Nat × polyHash) :=
  let length := msg.length - msg.length % TagSize
  let h' := if 0 < length then updateLoop (msg.take length) msgBlock p.h p.r else p.h
  let rest := msg.drop length
  some (n, { p with h := h', buf := p.buf ++ rest })

/-- `Write(msg)` (source lines 94-117).  When the buffer is partially filled
(`off > 0`) the source evaluates `msg[:diff]` with `diff = TagSize - off`; if
`len(msg) < diff` this is a slice-bounds-out-of-range panic, modelled as
`none`.  Otherwise `copy` returns exactly `diff`, so `off` reaches `TagSize`,
the buffer is folded with the `msgBlock` flag and `off` resets to 0. -/
def polyHash.Write (p : polyHash) (msg : List Nat) : Option (Nat × polyHash) :=
  let n := msg.length
  if 0 < p.buf.length then
    let diff := TagSize - p.buf.length
    if msg.length < diff then none
    else
      let h' := updateLoop (p.buf ++ msg.take diff) msgBlock p.h p.r
      writeBlocks n (msg.drop diff) { p with h := h', buf := [] }
  else
    writeBlocks n msg p

/-- The padded final block built inside `Sum` (source lines 123-127):
`buf[off] = 1`, zero-fill up to 16 bytes. -/
def padFinal (buf : List Nat) : List Nat :=
  buf ++ 1 :: List.replicate (TagSize - buf.length - 1) 0

/-- The "fully carry h" stage of `finish` (source lines 208-220). -/
def carryH (h0 h1 h2 h3 h4 : Nat) : Limbs :=
  let h2a := (h2 + (h1 >>> 26)) % 2^32
  let h1a := h1 &&& 0x3ffffff
  let h3a := (h3 + (h2a >>> 26)) % 2^32
  let h2b := h2a &&& 0x3ffffff
  let h4a := (h4 + (h3a >>> 26)) % 2^32
  let h3b := h3a &&& 0x3ffffff
  let h0a := (h0 + 5 * (h4a >>> 26)) % 2^32
  let h4b := h4a &&& 0x3ffffff
  let h1b := (h1a + (h0a >>> 26)) % 2^32
  let h0b := h0a &&& 0x3ffffff
  (h0b, h1b, h2b, h3b, h4b)

/-- The "h + -p" and mask-selection stages of `finish` (source lines 222-246).
The `uint32` subtraction `- (1 << 26)` and the `- 1` in the mask computation
wrap modulo `2^32`. -/
def condSub (c : Limbs) : Limbs :=
  match c with
  | (h0, h1, h2, h3, h4) =>
    let g0 := (h0 + 5) % 2^32
    let g1 := (h1 + (g0 >>> 26)) % 2^32
    let g0a := g0 &&& 0x3ffffff
    let g2 := (h2 + (g1 >>> 26)) % 2^32
    let g1a := g1 &&& 0x3ffffff
    let g3 := (h3 + (g2 >>> 26)) % 2^32
    let g2a := g2 &&& 0x3ffffff
    let g4 := (h4 + (g3 >>> 26) + 2^32 - (1 <<< 26)) % 2^32
    let g3a := g3 &&& 0x3ffffff
    let mask := ((g4 >>> 31) + 2^32 - 1) % 2^32
    let t0 := g0a &&& mask
    let t1 := g1a &&& mask
    let t2 := g2a &&& mask
    let t3 := g3a &&& mask
    let t4 := g4 &&& mask
    let mask2 := mask ^^^ (2^32 - 1)
    ((h0 &&& mask2) ||| t0, (h1 &&& mask2) ||| t1, (h2 &&& mask2) ||| t2,
      (h3 &&& mask2) ||| t3, (h4 &&& mask2) ||| t4)

/-- The "h %= 2^128" repacking stage of `finish` (source lines 248-252):
5 x 26-bit limbs into 4 x 32-bit words (`uint32` shifts truncate). -/
def pack128 (c : Limbs) : Words :=
  match c with
  | (h0, h1, h2, h3, h4) =>
    ( h0 ||| ((h1 <<< 26) % 2^32),
      (h1 >>> 6) ||| ((h2 <<< 20) % 2^32),
      (h2 >>> 12) ||| ((h3 <<< 14) % 2^32),
      (h3 >>> 18) ||| ((h4 <<< 8) % 2^32) )

/-- The "tag = (h + pad) % (2^128)" stage of `finish` (source lines 254-262):
`uint64` accumulation with 32-bit carries. -/
def addPad (t pad : Words) : Words :=
  match t, pad with
  | (t0, t1, t2, t3), (p0, p1, p2, p3) =>
    let f0 := t0 + p0
    let f1 := t1 + p1 + (f0 >>> 32)
    let f2 := t2 + p2 + (f1 >>> 32)
    let f3 := t3 + p3 + (f2 >>> 32)
    (f0 % 2^32, f1 % 2^32, f2 % 2^32, f3 % 2^32)

/-- Little-endian byte encoding of the four tag words (source lines 271-286). -/
def encodeWords (w : Words) : List Nat :=
  match w with
  | (w0, w1, w2, w3) =>
    [ w0 % 256, (w0 >>> 8) % 256, (w0 >>> 16) % 256, (w0 >>> 24) % 256,
      w1 % 256, (w1 >>> 8) % 256, (w1 >>> 16) % 256, (w1 >>> 24) % 256,
      w2 % 256, (w2 >>> 8) % 256, (w2 >>> 16) % 256, (w2 >>> 24) % 256,
      w3 % 256, (w3 >>> 8) % 256, (w3 >>> 16) % 256, (w3 >>> 24) % 256 ]

/-- `finish(tag, h, pad)` (source lines 205-287). -/
def finish (h : Limbs) (pad : Words) : List Nat :=
  match h with
  | (h0, h1, h2, h3, h4) => encodeWords (addPad (pack128 (condSub (carryH h0 h1 h2 h3 h4))) pad)

/-- `Sum(b)` (source lines 119-133).  The method works on the copy `p0 := *p`,
so the receiver is returned unchanged as the second component. -/
def polyHash.Sum (p : polyHash) (b : List Nat) : List Nat × polyHash :=
  let mac :=
    if 0 < p.buf.length then
      finish (updateLoop (padFinal p.buf) finalBlock p.h p.r) p.pad
    else
      finish p.h p.pad
  (b ++ mac, p)

/-- `Reset()` (source lines 90-92) unconditionally panics; the panic is
modelled as `none`. -/
def polyHash.Reset (_p : polyHash) : Option Unit := none

/-- Modelled from the spec: the package-level one-shot `Sum(&sum, msg, key)`
function called by `Verify` is not part of the provided source; §6 of the spec
says `Verify` "internally performs a full init+update+finish", i.e. the
one-shot tag is the engine's tag for the whole message fed in one `Write`
(which, from a fresh engine with an empty buffer, always succeeds). -/
def SumPkg (msg key : List Nat) : List Nat :=
  match (newState key).Write msg with
  | some (_, p) => (p.Sum []).1
  | none => []

/-- Modelled from the spec: `subtle.ConstantTimeCompare` from the standard
library is not part of the provided source; it returns 1 iff the two byte
slices have equal length and contents, by ORing together the XORs of the byte
pairs and comparing the result with 0. -/
def ctCompare (x y : List Nat) : Nat :=
  if x.length ≠ y.length then 0
  else
    let v := (x.zip y).foldl (fun a q => a ||| (q.1 ^^^ q.2)) 0
    (((v ^^^ 0) + 2^32 - 1) % 2^32) >>> 31

/-- `Verify(mac, msg, key)` (source lines 52-58). -/
def Verify (mac msg key : List Nat) : Bool :=
  ctCompare (SumPkg msg key) mac == 1

/-- `p = 2^130 - 5`, the field modulus. -/
def p1305 : Nat := 2^130 - 5

/-- The value represented by five 26-bit limbs. -/
def limbsVal (c : Limbs) : Nat :=
  match c with
  | (c0, c1, c2, c3, c4) => c0 + c1 * 2^26 + c2 * 2^52 + c3 * 2^78 + c4 * 2^104

/-- The value represented by four 32-bit words. -/
def wordsVal (w : Words) : Nat :=
  match w with
  | (w0, w1, w2, w3) => w0 + w1 * 2^32 + w2 * 2^64 + w3 * 2^96

/-- Little-endian 16-byte encoding of a number below `2^128` (the spec's
reference encoding). -/
def leBytes16 (x : Nat) : List Nat :=
  [ x % 256, (x / 2^8) % 256, (x / 2^16) % 256, (x / 2^24) % 256,
    (x / 2^32) % 256, (x / 2^40) % 256, (x / 2^48) % 256, (x / 2^56) % 256,
    (x / 2^64) % 256, (x / 2^72) % 256, (x / 2^80) % 256, (x / 2^88) % 256,
    (x / 2^96) % 256, (x / 2^104) % 256, (x / 2^112) % 256, (x / 2^120) % 256 ]

/-- The spec's finish: `((v mod p) mod 2^128 + pad) mod 2^128` in exact
big-integer arithmetic, encoded little-endian. -/
def tagSpec (v padv : Nat) : List Nat := leBytes16 (((v % p1305) % 2^128 + padv) % 2^128)

/-- The key of the RFC 7539 §2.5.2 Poly1305 test vector. -/
def keyRFC : List Nat :=
  [0x85, 0xd6, 0xbe, 0x78, 0x57, 0x55, 0x6d, 0x33, 0x7f, 0x44, 0x52, 0xfe,
   0x42, 0xd5, 0x06, 0xa8, 0x01, 0x03, 0x80, 0x8a, 0xfb, 0x0d, 0xb2, 0xfd,
   0x4a, 0xbf, 0xf6, 0xaf, 0x41, 0x49, 0xf5, 0x1b]

/-- The message of the RFC 7539 §2.5.2 Poly1305 test vector
("Cryptographic Forum Research Group"). -/
def msgRFC : List Nat :=
  [0x43, 0x72, 0x79, 0x70, 0x74, 0x6f, 0x67, 0x72, 0x61, 0x70, 0x68, 0x69,
   0x63, 0x20, 0x46, 0x6f, 0x72, 0x75, 0x6d, 0x20, 0x52, 0x65, 0x73, 0x65,
   0x61, 0x72, 0x63, 0x68, 0x20, 0x47, 0x72, 0x6f, 0x75, 0x70]

set_option maxRecDepth 10000 in
/-- Known-answer vector (RFC 7539 §2.5.2) for the one-shot tag: a sanity check
that the embedding computes the published Poly1305 test vector. -/
example :
    SumPkg msgRFC keyRFC =
    [0xa8, 0x06, 0x1d, 0xc1, 0x30, 0x51, 0x36, 0xc6, 0xc2, 0x2b, 0x8b, 0xaf,
     0x0c, 0x01, 0x27, 0xa9] := by decide

/-! ## Helper lemmas -/

theorem and_mask26 (x : Nat) : x &&& 0x3ffffff = x % 2^26 := by
  have h : (0x3ffffff : Nat) = 2^26 - 1 := by norm_num
  rw [h, Nat.and_pow_two_sub_one_eq_mod]

theorem and_mask32 (x : Nat) : x &&& 0xffffffff = x % 2^32 := by
  have h : (0xffffffff : Nat) = 2^32 - 1 := by norm_num
  rw [h, Nat.and_pow_two_sub_one_eq_mod]

theorem getD_lt_256 (l : List Nat) (i : Nat) (hb : ∀ b ∈ l, b < 256) :
    l.getD i 0 < 256 := by
  induction l generalizing i with
  | nil => simp [List.getD]
  | cons a t ih =>
    cases i with
    | zero => exact hb a (by simp)
    | succ j =>
      simp only [List.getD_cons_succ]
      exact ih j (fun b hb' => hb b (by simp [hb']))

theorem le32_lt (m : List Nat) (i : Nat) (hb : ∀ b ∈ m, b < 256) :
    le32 m i < 2^32 := by
  have g0 := getD_lt_256 m i hb
  have g1 := getD_lt_256 m (i+1) hb
  have g2 := getD_lt_256 m (i+2) hb
  have g3 := getD_lt_256 m (i+3) hb
  unfold le32
  refine Nat.or_lt_two_pow (Nat.or_lt_two_pow (Nat.or_lt_two_pow ?_ ?_) ?_) ?_ <;>
    (try simp only [Nat.shiftLeft_eq]) <;> omega

/-! ## Claims about construction, reset, and the streaming interface -/

/-- C5: for every key whose length is not exactly 32 bytes, construction via
`New` fails with a `KeySizeError` carrying the offending length and returns no
engine; for every 32-byte key, construction succeeds. -/
theorem New_enforces_key_size (key : List Nat) :
    (key.length ≠ 32 → New key = .error (.keySizeError key.length)) ∧
    (key.length = 32 → New key = .ok (newState key)) := by
  constructor <;> intro h <;> simp [New, h]

/-- Witness for C5 at the lengths named by the spec: 0, 31, 33, 64 fail, 32
succeeds. -/
theorem New_enforces_key_size_witness :
    New (List.replicate 0 0) = .error (.keySizeError 0) ∧
    New (List.replicate 31 0) = .error (.keySizeError 31) ∧
    New (List.replicate 33 0) = .error (.keySizeError 33) ∧
    New (List.replicate 64 0) = .error (.keySizeError 64) ∧
    New (List.replicate 32 0) = .ok (newState (List.replicate 32 0)) :=
  ⟨(New_enforces_key_size _).1 (by decide), (New_enforces_key_size _).1 (by decide),
   (New_enforces_key_size _).1 (by decide), (New_enforces_key_size _).1 (by decide),
   (New_enforces_key_size _).2 (by decide)⟩

/-- C8: invoking `Reset` on any engine instance fails loudly (the source
unconditionally panics, modelled as `none`) and never returns a state. -/
theorem Reset_always_fails (p : polyHash) : p.Reset = none := rfl

/-- C10: `Sum` operates on a copy of the engine state and leaves the receiver
unchanged; hence two consecutive `Sum` calls agree and a `Write` after a `Sum`
behaves as if the `Sum` had never occurred. -/
theorem Sum_does_not_mutate (p : polyHash) (b : List Nat) :
    (p.Sum b).2 = p ∧
    ((p.Sum b).2.Sum b).1 = (p.Sum b).1 ∧
    (∀ msg : List Nat, (p.Sum b).2.Write msg = p.Write msg) :=
  ⟨rfl, rfl, fun _ => rfl⟩

/-- C2 (failing input): `Write` is not total.  After buffering a single byte,
a second `Write` with the empty message evaluates `msg[:15]` on a 0-byte
slice and panics, although the first write succeeded. -/
theorem Write_panics_after_partial_block :
    (((newState keyRFC).Write [0x43]).bind fun x => x.2.Write []) = none ∧
    ((newState keyRFC).Write [0x43]).isSome = true := by constructor <;> decide

/-- C1 (failing input): chunking invariance fails.  Feeding the two-byte
message `[0x43, 0x72]` as chunks `[0x43]`, `[0x72]` panics on the second
`Write` (`msg[:15]` on a 1-byte slice), while the one-shot `Write` of the
same message succeeds; the chunked run therefore never produces the
one-shot tag. -/
theorem chunked_Write_diverges_from_one_shot :
    (((newState keyRFC).Write [0x43, 0x72]).map fun x => (x.2.Sum []).1).isSome = true ∧
    ((((newState keyRFC).Write [0x43]).bind fun x => x.2.Write [0x72]).map
      fun x => (x.2.Sum []).1) = none := by constructor <;> decide

/-- `ConstantTimeCompare` of a list with itself returns 1. -/
theorem ctCompare_self (x : List Nat) : ctCompare x x = 1 := by
  have hz : ∀ l : List Nat, (l.zip l).foldl (fun a q => a ||| (q.1 ^^^ q.2)) 0 = 0 := by
    intro l
    induction l with
    | nil => rfl
    | cons a t ih => simpa [List.zip_cons_cons] using ih
  simp [ctCompare, hz x]

/-- C4: verification correctness.  For every key and message, `Verify`
applied to the one-shot tag of `(key, msg)`, the message and the key returns
`true` (and `Verify` is a total boolean function by construction). -/
theorem Verify_accepts_genuine_tag (key msg : List Nat) :
    Verify (SumPkg msg key) msg key = true := by
  unfold Verify
  rw [ctCompare_self]
  rfl

/-- Engine states reachable from construction by (successful) `Write` calls. -/
inductive Reachable : polyHash → Prop where
  | new : ∀ key : List Nat, Reachable (newState key)
  | write : ∀ (s : polyHash) (msg : List Nat) (n : Nat) (s' : polyHash),
      Reachable s → s.Write msg = some (n, s') → Reachable s'

/-- A successful `Write` leaves `off = (off + len(msg)) % 16`: in particular,
whenever the incoming bytes complete the 16-byte buffer it is folded and the
offset is reset before the call returns. -/
theorem Write_off_eq (s : polyHash) (msg : List Nat) (n : Nat) (s' : polyHash)
    (hlt : s.buf.length < 16) (hw : s.Write msg = some (n, s')) :
    s'.buf.length = (s.buf.length + msg.length) % 16 := by
  unfold polyHash.Write writeBlocks at hw
  by_cases h1 : 0 < s.buf.length
  · rw [if_pos h1] at hw
    by_cases h2 : msg.length < TagSize - s.buf.length
    · rw [if_pos h2] at hw
      exact Option.noConfusion hw
    · rw [if_neg h2] at hw
      injection hw with hw'
      injection hw' with hn hs
      subst hs
      simp only [List.nil_append, List.length_drop, TagSize] at h2 ⊢
      omega
  · rw [if_neg h1] at hw
    injection hw with hw'
    injection hw' with hn hs
    subst hs
    simp only [List.length_append, List.length_drop, TagSize]
    omega

/-- C7: every engine state reachable from construction by successful `Write`
calls keeps `off` in `[0, 16)`; and a successful `Write` always leaves
`off = (off + len(msg)) % 16`, so whenever incoming bytes complete the
16-byte buffer it is folded into the accumulator and the offset is reset to
0 before the call returns. -/
theorem buffer_offset_invariant :
    (∀ s : polyHash, Reachable s → s.buf.length < 16) ∧
    (∀ (s : polyHash) (msg : List Nat) (n : Nat) (s' : polyHash),
      s.buf.length < 16 → s.Write msg = some (n, s') →
      s'.buf.length = (s.buf.length + msg.length) % 16) := by
  constructor
  · intro s hs
    induction hs with
    | new key => simp [newState]
    | write s msg n s' hr hw ih =>
      rw [Write_off_eq s msg n s' ih hw]
      omega
  · exact Write_off_eq

/-- Witness for C7: applies the invariant to the freshly constructed engine
and the offset equation to a concrete one-byte write. -/
theorem buffer_offset_invariant_witness :
    (newState keyRFC).buf.length < 16 ∧
    (((newState keyRFC).Write [0x43]).getD (0, newState keyRFC)).2.buf.length =
      ((newState keyRFC).buf.length + [0x43].length) % 16 :=
  ⟨buffer_offset_invariant.1 _ (Reachable.new keyRFC),
   buffer_offset_invariant.2 _ [0x43] 1 _ (by decide) (by decide)⟩

/-! ## Correctness of `finish`

The four stages of `finish` are characterised one by one: the full carry
chain, the conditional subtraction of `p = 2^130 - 5`, the repacking of the
five 26-bit limbs into four 32-bit words modulo `2^128`, and the final
addition of the pad with 32-bit carries.  The limb bounds assumed are the
ones every `update` call (and the zero initial state) establishes:
`h0, h2, h3, h4 < 2^26` and `h1 < 2^26 + 64`. -/

/-- The carry chain of `finish` leaves all five limbs below `2^26` and changes
the represented value by a multiple of `p = 2^130 - 5` (0 or 1 times). -/
theorem carryH_spec {a2 a3 a4 a0 : Nat} (h0 h1 h2 h3 h4 : Nat)
    (b0 : h0 < 2^26) (b1 : h1 < 2^26 + 64) (b2 : h2 < 2^26) (b3 : h3 < 2^26) (b4 : h4 < 2^26)
    (e2 : a2 = (h2 + (h1 >>> 26)) % 2^32)
    (e3 : a3 = (h3 + (a2 >>> 26)) % 2^32)
    (e4 : a4 = (h4 + (a3 >>> 26)) % 2^32)
    (e0 : a0 = (h0 + 5 * (a4 >>> 26)) % 2^32) :
    ∃ c0 c1 c2 c3 c4 k,
      carryH h0 h1 h2 h3 h4 = (c0, c1, c2, c3, c4) ∧
      c0 < 2^26 ∧ c1 < 2^26 ∧ c2 < 2^26 ∧ c3 < 2^26 ∧ c4 < 2^26 ∧ k ≤ 1 ∧
      c0 + c1 * 2^26 + c2 * 2^52 + c3 * 2^78 + c4 * 2^104 + (2^130 - 5) * k =
        h0 + h1 * 2^26 + h2 * 2^52 + h3 * 2^78 + h4 * 2^104 := by
  simp only [carryH]
  rw [← e2, ← e3, ← e4, ← e0]
  simp only [and_mask26, Nat.shiftRight_eq_div_pow] at e2 e3 e4 e0 ⊢
  -- none of the uint32 additions in the carry chain wraps
  have t2 : h2 + h1 / 2^26 < 2^32 := by omega
  rw [Nat.mod_eq_of_lt t2] at e2
  have t3 : h3 + a2 / 2^26 < 2^32 := by omega
  rw [Nat.mod_eq_of_lt t3] at e3
  have t4 : h4 + a3 / 2^26 < 2^32 := by omega
  rw [Nat.mod_eq_of_lt t4] at e4
  have t0 : h0 + 5 * (a4 / 2^26) < 2^32 := by omega
  rw [Nat.mod_eq_of_lt t0] at e0
  have tm : h1 % 2^26 + a0 / 2^26 < 2^32 := by omega
  rw [Nat.mod_eq_of_lt tm]
  have wc : a0 / 2^26 = 0 ∨ (a4 = 2^26 ∧ h1 / 2^26 = 1) := by omega
  refine ⟨_, _, _, _, _, a4 / 2^26, rfl, ?_, ?_, ?_, ?_, ?_, ?_, ?_⟩ <;> omega

/-- The conditional subtraction of `finish`: on canonical limbs it returns
the limbs of the represented value reduced modulo `p = 2^130 - 5`. -/
theorem condSub_spec {g0 g1 g2 g3 g4 m : Nat} (c0 c1 c2 c3 c4 : Nat)
    (b0 : c0 < 2^26) (b1 : c1 < 2^26) (b2 : c2 < 2^26) (b3 : c3 < 2^26) (b4 : c4 < 2^26)
    (hg0 : g0 = (c0 + 5) % 2^32)
    (hg1 : g1 = (c1 + (g0 >>> 26)) % 2^32)
    (hg2 : g2 = (c2 + (g1 >>> 26)) % 2^32)
    (hg3 : g3 = (c3 + (g2 >>> 26)) % 2^32)
    (hg4 : g4 = (c4 + (g3 >>> 26) + 2^32 - (1 <<< 26)) % 2^32)
    (hm : m = ((g4 >>> 31) + 2^32 - 1) % 2^32) :
    ∃ f0 f1 f2 f3 f4,
      condSub (c0, c1, c2, c3, c4) = (f0, f1, f2, f3, f4) ∧
      f0 < 2^26 ∧ f1 < 2^26 ∧ f2 < 2^26 ∧ f3 < 2^26 ∧ f4 < 2^26 ∧
      f0 + f1 * 2^26 + f2 * 2^52 + f3 * 2^78 + f4 * 2^104 =
        (c0 + c1 * 2^26 + c2 * 2^52 + c3 * 2^78 + c4 * 2^104) % (2^130 - 5) := by
  simp only [condSub]
  rw [← hg0, ← hg1, ← hg2, ← hg3, ← hg4, ← hm]
  simp only [Nat.shiftRight_eq_div_pow, Nat.shiftLeft_eq, one_mul] at hg0 hg1 hg2 hg3 hg4 hm
  -- the additions in the g chain do not wrap
  have u0 : c0 + 5 < 2^32 := by omega
  rw [Nat.mod_eq_of_lt u0] at hg0
  have u1 : c1 + g0 / 2^26 < 2^32 := by omega
  rw [Nat.mod_eq_of_lt u1] at hg1
  have u2 : c2 + g1 / 2^26 < 2^32 := by omega
  rw [Nat.mod_eq_of_lt u2] at hg2
  have u3 : c3 + g2 / 2^26 < 2^32 := by omega
  rw [Nat.mod_eq_of_lt u3] at hg3
  -- case split on the borrow of the wrapping uint32 subtraction
  rcases Nat.lt_or_ge (c4 + g3 / 2^26) (2^26) with hbr | hbr
  · -- borrow: the value is below p and the original limbs are kept
    have u4 : c4 + g3 / 2^26 + 2^32 - 2^26 < 2^32 := by omega
    rw [Nat.mod_eq_of_lt u4] at hg4
    have hg31 : g4 / 2^31 = 1 := by omega
    rw [hg31] at hm
    norm_num at hm
    subst hm
    have hxor : (0 : Nat) ^^^ (2^32 - 1) = 4294967295 := by decide
    rw [hxor]
    simp only [Nat.and_zero, Nat.or_zero, and_mask32]
    refine ⟨_, _, _, _, _, rfl, ?_, ?_, ?_, ?_, ?_, ?_⟩
    · omega
    · omega
    · omega
    · omega
    · omega
    · have hsmall : c0 + c1 * 2^26 + c2 * 2^52 + c3 * 2^78 + c4 * 2^104 < 2^130 - 5 := by omega
      rw [Nat.mod_eq_of_lt hsmall]
      omega
  · -- no borrow: the value is at least p and the subtracted limbs are kept
    have hc4 : c4 + g3 / 2^26 = 2^26 := by omega
    have hg40 : g4 = 0 := by rw [hg4, hc4]; norm_num
    rw [hg40] at hm
    norm_num at hm
    subst hm
    have hxor : (4294967295 : Nat) ^^^ (2^32 - 1) = 0 := by decide
    rw [hxor]
    simp only [Nat.and_zero, Nat.zero_or, and_mask26, and_mask32]
    have hch : c4 = 2^26 - 1 ∧ g3 = 2^26 ∧ c3 = 2^26 - 1 ∧ g2 = 2^26 ∧ c2 = 2^26 - 1 ∧
        g1 = 2^26 ∧ c1 = 2^26 - 1 ∧ g0 / 2^26 = 1 := by omega
    rw [hg40]
    refine ⟨_, _, _, _, _, rfl, ?_, ?_, ?_, ?_, ?_, ?_⟩
    · omega
    · omega
    · omega
    · omega
    · omega
    · have hlo : 2^130 - 5 ≤ c0 + c1 * 2^26 + c2 * 2^52 + c3 * 2^78 + c4 * 2^104 := by omega
      have hmod : (c0 + c1 * 2^26 + c2 * 2^52 + c3 * 2^78 + c4 * 2^104) % (2^130 - 5) =
          c0 + c1 * 2^26 + c2 * 2^52 + c3 * 2^78 + c4 * 2^104 - (2^130 - 5) := by
        rw [Nat.mod_eq_sub_mod hlo]
        exact Nat.mod_eq_of_lt (by omega)
      rw [hmod]
      omega

/-- The repacking stage of `finish`: five canonical 26-bit limbs become the
four little-endian 32-bit words of the value modulo `2^128`. -/
theorem pack128_spec (f0 f1 f2 f3 f4 : Nat)
    (b0 : f0 < 2^26) (b1 : f1 < 2^26) (b2 : f2 < 2^26) (b3 : f3 < 2^26) (b4 : f4 < 2^26) :
    ∃ t0 t1 t2 t3,
      pack128 (f0, f1, f2, f3, f4) = (t0, t1, t2, t3) ∧
      t0 < 2^32 ∧ t1 < 2^32 ∧ t2 < 2^32 ∧ t3 < 2^32 ∧
      t0 + t1 * 2^32 + t2 * 2^64 + t3 * 2^96 =
        (f0 + f1 * 2^26 + f2 * 2^52 + f3 * 2^78 + f4 * 2^104) % 2^128 := by
  have m1 : (f1 <<< 26) % 2^32 = 2^26 * (f1 % 2^6) := by rw [Nat.shiftLeft_eq]; omega
  have m2 : (f2 <<< 20) % 2^32 = 2^20 * (f2 % 2^12) := by rw [Nat.shiftLeft_eq]; omega
  have m3 : (f3 <<< 14) % 2^32 = 2^14 * (f3 % 2^18) := by rw [Nat.shiftLeft_eq]; omega
  have m4 : (f4 <<< 8) % 2^32 = 2^8 * (f4 % 2^24) := by rw [Nat.shiftLeft_eq]; omega
  have d1 : f1 >>> 6 < 2^20 := by rw [Nat.shiftRight_eq_div_pow]; omega
  have d2 : f2 >>> 12 < 2^14 := by rw [Nat.shiftRight_eq_div_pow]; omega
  have d3 : f3 >>> 18 < 2^8 := by rw [Nat.shiftRight_eq_div_pow]; omega
  simp only [pack128]
  rw [m1, m2, m3, m4, Nat.lor_comm f0, Nat.lor_comm (f1 >>> 6), Nat.lor_comm (f2 >>> 12),
    Nat.lor_comm (f3 >>> 18), ← Nat.mul_add_lt_is_or b0, ← Nat.mul_add_lt_is_or d1,
    ← Nat.mul_add_lt_is_or d2, ← Nat.mul_add_lt_is_or d3]
  simp only [Nat.shiftRight_eq_div_pow]
  refine ⟨_, _, _, _, rfl, ?_, ?_, ?_, ?_, ?_⟩ <;> omega

/-- The pad-addition stage of `finish`: 128-bit addition of the pad with
32-bit carry propagation. -/
theorem addPad_spec (t0 t1 t2 t3 p0 p1 p2 p3 : Nat)
    (a0 : t0 < 2^32) (a1 : t1 < 2^32) (a2 : t2 < 2^32) (a3 : t3 < 2^32)
    (q0 : p0 < 2^32) (q1 : p1 < 2^32) (q2 : p2 < 2^32) (q3 : p3 < 2^32) :
    ∃ w0 w1 w2 w3,
      addPad (t0, t1, t2, t3) (p0, p1, p2, p3) = (w0, w1, w2, w3) ∧
      w0 < 2^32 ∧ w1 < 2^32 ∧ w2 < 2^32 ∧ w3 < 2^32 ∧
      w0 + w1 * 2^32 + w2 * 2^64 + w3 * 2^96 =
        (t0 + t1 * 2^32 + t2 * 2^64 + t3 * 2^96 +
          (p0 + p1 * 2^32 + p2 * 2^64 + p3 * 2^96)) % 2^128 := by
  simp only [addPad, Nat.shiftRight_eq_div_pow]
  refine ⟨_, _, _, _, rfl, ?_, ?_, ?_, ?_, ?_⟩ <;> omega

/-- Full correctness of `finish`: on any accumulator within the limb ranges
established by `update` (or the zero initial state) and any pad words, the
produced 16 bytes are the little-endian encoding of
`((v mod p) mod 2^128 + pad) mod 2^128`. -/
theorem finish_spec (h0 h1 h2 h3 h4 p0 p1 p2 p3 : Nat)
    (b0 : h0 < 2^26) (b1 : h1 < 2^26 + 64) (b2 : h2 < 2^26) (b3 : h3 < 2^26) (b4 : h4 < 2^26)
    (q0 : p0 < 2^32) (q1 : p1 < 2^32) (q2 : p2 < 2^32) (q3 : p3 < 2^32) :
    finish (h0, h1, h2, h3, h4) (p0, p1, p2, p3) =
      tagSpec (h0 + h1 * 2^26 + h2 * 2^52 + h3 * 2^78 + h4 * 2^104)
        (p0 + p1 * 2^32 + p2 * 2^64 + p3 * 2^96) := by
  obtain ⟨c0, c1, c2, c3, c4, k, hc, cb0, cb1, cb2, cb3, cb4, hk, hcv⟩ :=
    carryH_spec h0 h1 h2 h3 h4 b0 b1 b2 b3 b4 rfl rfl rfl rfl
  obtain ⟨f0, f1, f2, f3, f4, hf, fb0, fb1, fb2, fb3, fb4, hfv⟩ :=
    condSub_spec c0 c1 c2 c3 c4 cb0 cb1 cb2 cb3 cb4 rfl rfl rfl rfl rfl rfl
  obtain ⟨t0, t1, t2, t3, ht, tb0, tb1, tb2, tb3, htv⟩ :=
    pack128_spec f0 f1 f2 f3 f4 fb0 fb1 fb2 fb3 fb4
  obtain ⟨w0, w1, w2, w3, hw, wb0, wb1, wb2, wb3, hwv⟩ :=
    addPad_spec t0 t1 t2 t3 p0 p1 p2 p3 tb0 tb1 tb2 tb3 q0 q1 q2 q3
  have hmodp : (h0 + h1 * 2^26 + h2 * 2^52 + h3 * 2^78 + h4 * 2^104) % (2^130 - 5) =
      (c0 + c1 * 2^26 + c2 * 2^52 + c3 * 2^78 + c4 * 2^104) % (2^130 - 5) := by
    rw [← hcv, Nat.add_mul_mod_self_left]
  obtain ⟨V, hV⟩ : ∃ v,
      (h0 + h1 * 2^26 + h2 * 2^52 + h3 * 2^78 + h4 * 2^104) % (2^130 - 5) = v := ⟨_, rfl⟩
  obtain ⟨U, hU⟩ : ∃ u, V % 2^128 = u := ⟨_, rfl⟩
  obtain ⟨X, hX⟩ : ∃ x, (U + (p0 + p1 * 2^32 + p2 * 2^64 + p3 * 2^96)) % 2^128 = x := ⟨_, rfl⟩
  have hfV : f0 + f1 * 2^26 + f2 * 2^52 + f3 * 2^78 + f4 * 2^104 = V := by
    rw [hfv, ← hmodp]
    exact hV
  have htU : t0 + t1 * 2^32 + t2 * 2^64 + t3 * 2^96 = U := by
    rw [htv, hfV]
    exact hU
  have hwX : w0 + w1 * 2^32 + w2 * 2^64 + w3 * 2^96 = X := by
    rw [hwv, htU]
    exact hX
  simp only [finish, hc, hf, ht, hw, encodeWords, tagSpec, leBytes16, p1305,
    Nat.shiftRight_eq_div_pow, List.cons.injEq, and_true]
  rw [hV, hU, hX]
  clear hc hf ht hw hcv hfv htv hwv hmodp hfV htU hV hU hX hk
  clear cb0 cb1 cb2 cb3 cb4 fb0 fb1 fb2 fb3 fb4 tb0 tb1 tb2 tb3 b0 b1 b2 b3 b4 q0 q1 q2 q3
  clear c0 c1 c2 c3 c4 f0 f1 f2 f3 f4 t0 t1 t2 t3 k
  have hX128 : X < 2^128 := by omega
  have hd0 : w0 = X - 2^32 * (X / 2^32) := by omega
  have hd1 : w1 = X / 2^32 - 2^32 * (X / 2^64) := by omega
  have hd2 : w2 = X / 2^64 - 2^32 * (X / 2^96) := by omega
  have hd3 : w3 = X / 2^96 := by omega
  clear hwX
  refine ⟨?_, ?_, ?_, ?_, ?_, ?_, ?_, ?_, ?_, ?_, ?_, ?_, ?_, ?_, ?_, ?_⟩ <;> omega

/-- C3: for every accumulator limb state within the ranges the update step can
produce whose represented value `v` is at or above `p = 2^130 - 5`, the finish
carry propagation followed by the mask-selected conditional subtraction
encodes the same 16-byte tag as `((v mod p) mod 2^128 + pad) mod 2^128` in
exact big-integer arithmetic, little-endian. -/
theorem finish_reduces_above_p (h0 h1 h2 h3 h4 p0 p1 p2 p3 : Nat)
    (b0 : h0 < 2^26) (b1 : h1 < 2^26 + 64) (b2 : h2 < 2^26) (b3 : h3 < 2^26) (b4 : h4 < 2^26)
    (q0 : p0 < 2^32) (q1 : p1 < 2^32) (q2 : p2 < 2^32) (q3 : p3 < 2^32)
    (hge : 2^130 - 5 ≤ h0 + h1 * 2^26 + h2 * 2^52 + h3 * 2^78 + h4 * 2^104) :
    finish (h0, h1, h2, h3, h4) (p0, p1, p2, p3) =
      tagSpec (h0 + h1 * 2^26 + h2 * 2^52 + h3 * 2^78 + h4 * 2^104)
        (p0 + p1 * 2^32 + p2 * 2^64 + p3 * 2^96) :=
  finish_spec h0 h1 h2 h3 h4 p0 p1 p2 p3 b0 b1 b2 b3 b4 q0 q1 q2 q3

/-- Witness for C3 at the boundary value `v = p` exactly (limbs
`(2^26 - 5, 2^26 - 1, 2^26 - 1, 2^26 - 1, 2^26 - 1)`). -/
theorem finish_reduces_above_p_witness :
    2^130 - 5 ≤ 0x3fffffb + 0x3ffffff * 2^26 + 0x3ffffff * 2^52 + 0x3ffffff * 2^78 +
      0x3ffffff * 2^104 ∧
    finish (0x3fffffb, 0x3ffffff, 0x3ffffff, 0x3ffffff, 0x3ffffff) (1, 2, 3, 4) =
      tagSpec (0x3fffffb + 0x3ffffff * 2^26 + 0x3ffffff * 2^52 + 0x3ffffff * 2^78 +
        0x3ffffff * 2^104) (1 + 2 * 2^32 + 3 * 2^64 + 4 * 2^96) :=
  ⟨by decide,
   finish_reduces_above_p 0x3fffffb 0x3ffffff 0x3ffffff 0x3ffffff 0x3ffffff 1 2 3 4
     (by decide) (by decide) (by decide) (by decide) (by decide)
     (by decide) (by decide) (by decide) (by decide) (by decide)⟩

/-- C9: for every 32-byte key, `Sum` on a freshly constructed engine folds no
block and yields the little-endian encoding of the pad words; a zero-length
`Write` on the fresh engine succeeds and leaves the state unchanged. -/
theorem Sum_of_fresh_engine (key : List Nat) (hk : key.length = 32)
    (hb : ∀ b ∈ key, b < 256) :
    ((newState key).Sum []).1 = leBytes16 (wordsVal (initPad key)) ∧
    (newState key).Write [] = some (0, newState key) := by
  constructor
  · have q0 := le32_lt key 16 hb
    have q1 := le32_lt key 20 hb
    have q2 := le32_lt key 24 hb
    have q3 := le32_lt key 28 hb
    have h1 : ((newState key).Sum []).1 =
        finish (0, 0, 0, 0, 0) (le32 key 16, le32 key 20, le32 key 24, le32 key 28) := by
      simp [polyHash.Sum, newState, initPad]
    rw [h1, finish_spec 0 0 0 0 0 _ _ _ _ (by norm_num) (by norm_num) (by norm_num)
      (by norm_num) (by norm_num) q0 q1 q2 q3]
    simp only [tagSpec, p1305, wordsVal, initPad]
    congr 1
    omega
  · simp [polyHash.Write, writeBlocks, newState, TagSize]

/-- Witness for C9 at the RFC 7539 key. -/
theorem Sum_of_fresh_engine_witness :
    ((newState keyRFC).Sum []).1 = leBytes16 (wordsVal (initPad keyRFC)) ∧
    (newState keyRFC).Write [] = some (0, newState keyRFC) :=
  Sum_of_fresh_engine keyRFC (by decide) (by decide)

/-- A 16-byte message makes the `update` loop run exactly once. -/
theorem updateLoop_single (msg : List Nat) (flag : Nat) (h r : Limbs)
    (hlen : msg.length = 16) :
    updateLoop msg flag h r = update1 msg flag h r := by
  have hne : msg ≠ [] := by
    intro h'
    subst h'
    simp at hlen
  have hdrop : msg.drop TagSize = [] := by
    apply List.drop_eq_nil_of_le
    simp [TagSize, hlen]
  have htake : msg.take TagSize = msg := by
    apply List.take_of_length_le
    simp [TagSize, hlen]
  simp [updateLoop, updateGo, hlen, hne, hdrop, htake]

/-- C6: every complete 16-byte block folded during `Write` is decoded with
the flag `1<<24` ORed into the fifth limb (so that limb always has bit 24
set); the final partial block folded during `Sum` is padded with a single
`0x01` byte, zero-filled to 16 bytes, and folded with flag 0 (so its fifth
limb never has bit 24 set); an empty buffer at `Sum` folds no extra block. -/
theorem block_flag_discipline :
    (∀ m : List Nat, (loadLimb4 m msgBlock).testBit 24 = true) ∧
    (∀ buf : List Nat, buf.length < 16 → (∀ b ∈ buf, b < 256) →
      (loadLimb4 (padFinal buf) finalBlock).testBit 24 = false) ∧
    (∀ (s : polyHash) (b : List Nat), s.buf = [] → (s.Sum b).1 = b ++ finish s.h s.pad) ∧
    (∀ (s : polyHash) (b : List Nat), s.buf ≠ [] →
      (s.Sum b).1 = b ++ finish (updateLoop (padFinal s.buf) finalBlock s.h s.r) s.pad) ∧
    (∀ (s : polyHash) (msg : List Nat), s.buf = [] → msg.length = 16 →
      s.Write msg = some (16, { s with h := update1 msg msgBlock s.h s.r, buf := [] })) := by
  refine ⟨?_, ?_, ?_, ?_, ?_⟩
  · intro m
    have h24 : msgBlock.testBit 24 = true := by decide
    simp only [loadLimb4, Nat.testBit_or, h24, Bool.or_true]
  · intro buf hlen hb
    have hball : ∀ b ∈ padFinal buf, b < 256 := by
      intro b hbmem
      simp only [padFinal, List.mem_append, List.mem_cons, List.mem_replicate] at hbmem
      rcases hbmem with h | h | h
      · exact hb b h
      · omega
      · omega
    have hlt := le32_lt (padFinal buf) 12 hball
    simp only [loadLimb4, finalBlock, Nat.or_zero, Nat.testBit_shiftRight]
    exact Nat.testBit_lt_two_pow (by omega)
  · intro s b hsb
    simp [polyHash.Sum, hsb]
  · intro s b hsb
    have hpos : 0 < s.buf.length := List.length_pos.mpr hsb
    simp [polyHash.Sum, hpos]
  · intro s msg hsb hlen
    have hL := updateLoop_single msg msgBlock s.h s.r hlen
    have hd : msg.drop 16 = [] := by
      apply List.drop_eq_nil_of_le
      omega
    have ht : msg.take 16 = msg := by
      apply List.take_of_length_le
      omega
    simp [polyHash.Write, writeBlocks, hsb, hlen, TagSize, hd, ht, hL]

/-- Witness for C6: the padded single-byte final block has bit 24 of its
fifth limb clear, and a `Sum` on an engine with an empty buffer folds
nothing. -/
theorem block_flag_discipline_witness :
    (loadLimb4 (padFinal [0x43]) finalBlock).testBit 24 = false ∧
    ((newState keyRFC).Sum []).1 = [] ++ finish (newState keyRFC).h (newState keyRFC).pad :=
  ⟨block_flag_discipline.2.1 [0x43] (by decide) (by decide),
   block_flag_discipline.2.2.1 (newState keyRFC) [] rfl⟩

end Poly1305
